import Mathlib

/-!
Verification of the colstodian core trait layer (`src/traits.rs`,
`src/details/traits.rs`).

Modelling conventions:
* `f32` scalars are modelled as exact rationals (`ℚ`); `glam::Vec3` is a record
  of three rationals with component-wise `Add`/`Sub` and scalar `Mul`, matching
  glam's semantics. Where a property's truth depends on f32 rounding rather
  than on the algebraic formula, the faithful binary32 model `F32` below is
  used instead: finite values carried exactly as integer multiples of the
  subnormal ulp 2 ^ (-149), results rounded to nearest with ties to even,
  with infinities and NaN.
* Rust traits with associated types become Lean structures with type fields;
  a trait implementation becomes a value of such a structure.
* Functions taking `&mut` arguments are modelled by explicit state passing:
  a `fn f(x: &mut T)` becomes `f : T → T`.
* Trait-instance *availability* (which conversions exist at compile time) is
  modelled by inductive derivability relations with exactly one constructor per
  `impl` block present in the source, parameterized by the (external)
  implementor-declared instance sets.
-/

namespace Colstodian

/-- glam::Vec3: three f32 components, modelled as rationals. -/
structure Vec3 where
  x : ℚ
  y : ℚ
  z : ℚ
deriving DecidableEq

instance : Add Vec3 :=
  ⟨fun v w => ⟨v.x + w.x, v.y + w.y, v.z + w.z⟩⟩

instance : Sub Vec3 :=
  ⟨fun v w => ⟨v.x - w.x, v.y - w.y, v.z - w.z⟩⟩

instance : HMul Vec3 ℚ Vec3 :=
  ⟨fun v t => ⟨v.x * t, v.y * t, v.z * t⟩⟩

/-- The number of binary digits of a natural number (0 for 0), computed with
explicit fuel so that it reduces structurally. -/
def bitlen : ℕ → ℕ → ℕ
  | 0, _ => 0
  | fuel + 1, n => if n ≤ 1 then n else bitlen fuel (n / 2) + 1

/-- Round-to-nearest, ties-to-even integer division of `n` by a positive
power of two `d`: the IEEE-754 default rounding of a scaled significand. -/
def rneDiv (n d : ℤ) : ℤ :=
  let f := Int.fdiv n d
  let r := n - f * d
  if 2 * r < d then f
  else if d < 2 * r then f + 1
  else if f % 2 = 0 then f else f + 1

/-- An IEEE-754 binary32 (f32) value: a finite value, an infinity, or NaN.
Every finite f32 is an integer multiple of 2 ^ (-149) (the subnormal ulp), so
a finite value is carried exactly as that integer: `finite val` denotes the
real value `val * 2 ^ (-149)`. Signed zeros are collapsed to 0, which is
harmless for value comparisons since `-0.0 == 0.0` under IEEE equality. -/
inductive F32 where
  | finite (val : ℤ)
  | inf
  | neginf
  | nan
deriving DecidableEq

/-- Round the exact value `n * 2 ^ (-s)` to the nearest binary32 value
(round-to-nearest, ties-to-even): find the binary exponent `e` of the
magnitude clamped below at -126 (the subnormal regime), round the significand
on the `2 ^ (e - 23)` grid, and overflow to an infinity when the rounded
magnitude reaches 2 ^ 128, as IEEE-754 prescribes for f32 results. -/
def roundF32 (n : ℤ) (s : ℕ) : F32 :=
  if n = 0 then .finite 0
  else
    let e2 : ℤ := (bitlen 600 n.natAbs : ℤ) - 1 - (s : ℤ)
    let e : ℤ := if e2 < -126 then -126 else e2
    let t : ℤ := e - 23 + (s : ℤ)
    let m : ℤ := if t ≤ 0 then n * 2 ^ (-t).toNat else rneDiv n (2 ^ t.toNat)
    if 128 ≤ e then if n < 0 then .neginf else .inf
    else if 2 ^ (151 - e).toNat ≤ m.natAbs then
      if n < 0 then .neginf else .inf
    else .finite (m * 2 ^ (e + 126).toNat)

/-- The f32 value of an integer: rounded like any exact result (integers up
to 2 ^ 24 and powers of two up to 2 ^ 127 are exactly representable). -/
def F32.ofInt (n : ℤ) : F32 := roundF32 n 0

/-- f32 negation. -/
def F32.neg : F32 → F32
  | .finite v => .finite (-v)
  | .inf => .neginf
  | .neginf => .inf
  | .nan => .nan

/-- f32 addition: a finite result is the correctly rounded exact sum (both
operands sit on the 2 ^ (-149) grid, so the exact sum does too); infinite and
NaN operands follow the IEEE-754 special-case rules. -/
def F32.add : F32 → F32 → F32
  | .finite a, .finite b => roundF32 (a + b) 149
  | .finite _, .inf => .inf
  | .inf, .finite _ => .inf
  | .inf, .inf => .inf
  | .finite _, .neginf => .neginf
  | .neginf, .finite _ => .neginf
  | .neginf, .neginf => .neginf
  | .inf, .neginf => .nan
  | .neginf, .inf => .nan
  | .nan, _ => .nan
  | _, .nan => .nan

/-- f32 subtraction: `a - b = a + (-b)`, as in IEEE-754. -/
def F32.sub (a b : F32) : F32 := a.add b.neg

/-- f32 multiplication: a finite result is the correctly rounded exact
product (the exact product of two multiples of 2 ^ (-149) is a multiple of
2 ^ (-298)); zero times an infinity is NaN, other infinite cases follow the
sign rule; NaN propagates. -/
def F32.mul : F32 → F32 → F32
  | .finite a, .finite b => roundF32 (a * b) 298
  | .finite a, .inf => if a = 0 then .nan else if 0 < a then .inf else .neginf
  | .inf, .finite b => if b = 0 then .nan else if 0 < b then .inf else .neginf
  | .finite a, .neginf =>
      if a = 0 then .nan else if 0 < a then .neginf else .inf
  | .neginf, .finite b =>
      if b = 0 then .nan else if 0 < b then .neginf else .inf
  | .inf, .inf => .inf
  | .neginf, .neginf => .inf
  | .inf, .neginf => .neginf
  | .neginf, .inf => .neginf
  | .nan, _ => .nan
  | _, .nan => .nan

/-- The blanket lerp body (src/details/traits.rs line 77) on one f32
component, computed in genuine f32 arithmetic:
`from + ((to - from) * factor)`. -/
def lerpF32 (c1 c2 factor : F32) : F32 :=
  c1.add ((c2.sub c1).mul factor)

/-- kolor's RGBPrimaries: external pure identity data (the spec: "pure data, no
behavior beyond identity"), modelled by an identifying tag. -/
structure RGBPrimaries where
  id : Nat
deriving DecidableEq

/-- kolor's WhitePoint: external pure identity data, modelled by a tag. -/
structure WhitePoint where
  id : Nat
deriving DecidableEq

/-- The LinearColorSpace trait: a linear color space is defined by the
combination of a set of primaries and a white point
(src/details/traits.rs lines 93-96). -/
structure LinearColorSpace where
  PRIMARIES : RGBPrimaries
  WHITE_POINT : WhitePoint
deriving DecidableEq

/-- The ColorEncoding trait (src/details/traits.rs lines 8-28): a raw data
representation, a bag-of-components view type, a linear color space, a name,
and the two transforms between raw storage and (linear vector, alpha). -/
structure ColorEncoding where
  Repr : Type
  ComponentStruct : Type
  LinearSpace : LinearColorSpace
  NAME : String
  src_transform_raw : Repr → Vec3 × ℚ
  dst_transform_raw : Vec3 → ℚ → Repr

/-- The provided default body of `ConvertFrom::map_src`
(src/details/traits.rs lines 109-110): `fn map_src(_src: &mut SrcEnc::Repr) {}`.
The body is empty, so the state behind the mutable reference is unchanged. -/
def map_src_default (SrcEnc : ColorEncoding) : SrcEnc.Repr → SrcEnc.Repr :=
  fun src => src

/-- The ConvertFrom trait (src/details/traits.rs lines 100-111): marks the
destination encoding as directly convertible from `SrcEnc` and carries the
optional pre-map hook, whose provided default is `map_src_default`. -/
structure ConvertFrom (SrcEnc DstEnc : ColorEncoding) where
  map_src : SrcEnc.Repr → SrcEnc.Repr := map_src_default SrcEnc

/-- The LinearConvertFromRaw trait (src/details/traits.rs lines 115-117):
the raw conversion from the linear space `SrcSpace` to the linear space
`DstSpace`; `fn linear_part_raw(raw: &mut Vec3)` mutates only a Vec3, modelled
as `Vec3 → Vec3` state passing. -/
structure LinearConvertFromRaw (SrcSpace DstSpace : LinearColorSpace) where
  linear_part_raw : Vec3 → Vec3

/-- The Color value wrapper: a raw representation tagged with its encoding
(the spec's Color Value; the wrapper itself lives outside src/). -/
structure Color (E : ColorEncoding) where
  repr : E.Repr

/-- Modelled from the spec: `Color::convert`, the conversion orchestrator of
section 4.3, is not under src/ (only its caller `ColorInto::color_into` is).
Sequence per the spec: (1) pre-map hook on the raw value, (2) decode via the
source's `src_transform_raw`, (3) linear-space conversion applied to the
vector with alpha passed through unchanged, (4) encode via the destination's
`dst_transform_raw`. -/
def convert (SrcEnc DstEnc : ColorEncoding)
    (cf : ConvertFrom SrcEnc DstEnc)
    (lc : LinearConvertFromRaw SrcEnc.LinearSpace DstEnc.LinearSpace)
    (r : SrcEnc.Repr) : DstEnc.Repr :=
  let r := cf.map_src r
  let p := SrcEnc.src_transform_raw r
  let raw := lc.linear_part_raw p.1
  DstEnc.dst_transform_raw raw p.2

/-- The generic `ColorInto` impl body (src/details/traits.rs lines 123-133):
`color_into` delegates to `convert`. -/
def color_into (SrcEnc DstEnc : ColorEncoding)
    (cf : ConvertFrom SrcEnc DstEnc)
    (lc : LinearConvertFromRaw SrcEnc.LinearSpace DstEnc.LinearSpace)
    (c : Color SrcEnc) : Color DstEnc :=
  ⟨convert SrcEnc DstEnc cf lc c.repr⟩

/-- Instance resolution for `ColorInto` in the core: the source contains
exactly one impl block (src/details/traits.rs lines 123-133), which derives
`Color<SrcEnc>: ColorInto<Color<DstEnc>>` from the bounds
`DstEnc: ConvertFrom<SrcEnc>` and
`DstEnc::LinearSpace: LinearConvertFromRaw<SrcEnc::LinearSpace>`.
`convertFromImpls` and `linearConvImpls` are the implementor-declared instance
sets (concrete encodings live outside this core). -/
inductive ColorIntoAvailable
    (convertFromImpls : ColorEncoding → ColorEncoding → Prop)
    (linearConvImpls : LinearColorSpace → LinearColorSpace → Prop) :
    ColorEncoding → ColorEncoding → Prop where
  | generic (SrcEnc DstEnc : ColorEncoding) :
      convertFromImpls SrcEnc DstEnc →
      linearConvImpls SrcEnc.LinearSpace DstEnc.LinearSpace →
      ColorIntoAvailable convertFromImpls linearConvImpls SrcEnc DstEnc

/-- The blanket `LinearInterpolate` impl body (src/details/traits.rs
lines 74-79): `Color { repr: from.repr + ((to.repr - from.repr) * factor) }`,
available for encodings whose `Repr` has `Add`, `Sub` and `Mul<f32>`. -/
def lerp (E : ColorEncoding) [Add E.Repr] [Sub E.Repr] [HMul E.Repr ℚ E.Repr]
    (c1 c2 : Color E) (factor : ℚ) : Color E :=
  ⟨c1.repr + ((c2.repr - c1.repr) * factor)⟩

/-- Instance resolution for `LinearInterpolate`: the source contains exactly
one impl, the blanket impl (src/details/traits.rs lines 69-73), covering
precisely the encodings `E` with `E: WorkingEncoding` and
`E::Repr: Add + Sub + Mul<f32>`. `workingImpls` is the set of declared
`WorkingEncoding` marker impls and `reprArithImpls R` states that the repr
type `R` has the declared component arithmetic (both supplied externally). -/
inductive LerpAvailable
    (workingImpls : ColorEncoding → Prop)
    (reprArithImpls : Type → Prop) :
    ColorEncoding → Prop where
  | blanket (E : ColorEncoding) :
      workingImpls E →
      reprArithImpls E.Repr →
      LerpAvailable workingImpls reprArithImpls E

/-- A raw 3-float representation: three components in storage order. -/
structure Raw3 where
  component0 : ℚ
  component1 : ℚ
  component2 : ℚ
deriving DecidableEq

/-- A named-component view of a raw 3-float representation. -/
structure XyzView where
  x : ℚ
  y : ℚ
  z : ℚ
deriving DecidableEq

/-- Modelled from the spec: `ComponentStructFor::cast`
(src/details/traits.rs lines 36-41) only declares the reinterpretation; no
implementation is under src/. A pointer cast between two types of identical
layout reads the same storage, so the view's named fields are the raw value's
components in storage order; the byte-level no-copy aliasing itself is a
memory-layout fact outside this embedding. -/
def ComponentStructFor.cast (r : Raw3) : XyzView :=
  ⟨r.component0, r.component1, r.component2⟩

/-- A concrete working encoding over the `Vec3` repr used to instantiate
witnesses: decode is the identity on the vector with alpha 1, encode drops the
alpha, so the two transforms are mutually inverse. -/
abbrev testEncoding : ColorEncoding :=
  ⟨Vec3, XyzView, ⟨⟨0⟩, ⟨0⟩⟩, "TestLinear", fun r => (r, 1), fun v _ => v⟩

/-- Hard clamp of one component into [0, 1]. -/
def clamp01 (q : ℚ) : ℚ := max 0 (min q 1)

/-- Modelled from the spec: a `Saturate` implementation for a `Vec3`-repr
encoding ("clamps a raw value into the encoding's valid representable range";
no implementation is under src/, only the trait declaration at
src/details/traits.rs lines 55-57). Hard component-wise clamp into [0, 1]. -/
def saturateClamp (v : Vec3) : Vec3 :=
  ⟨clamp01 v.x, clamp01 v.y, clamp01 v.z⟩

/-- The valid representable range of the clamping encoding: every component
in [0, 1]. -/
def inGamut (v : Vec3) : Prop :=
  0 ≤ v.x ∧ v.x ≤ 1 ∧ 0 ≤ v.y ∧ v.y ≤ 1 ∧ 0 ≤ v.z ∧ v.z ≤ 1

theorem Vec3.add_def (v w : Vec3) :
    v + w = ⟨v.x + w.x, v.y + w.y, v.z + w.z⟩ := rfl

theorem Vec3.sub_def (v w : Vec3) :
    v - w = ⟨v.x - w.x, v.y - w.y, v.z - w.z⟩ := rfl

theorem Vec3.mul_def (v : Vec3) (t : ℚ) :
    v * t = ⟨v.x * t, v.y * t, v.z * t⟩ := rfl

theorem clamp01_nonneg (q : ℚ) : 0 ≤ clamp01 q := le_max_left 0 (min q 1)

theorem clamp01_le_one (q : ℚ) : clamp01 q ≤ 1 :=
  max_le (by norm_num) (min_le_right q 1)

theorem clamp01_of_mem (q : ℚ) (h0 : 0 ≤ q) (h1 : q ≤ 1) : clamp01 q = q := by
  unfold clamp01
  rw [min_eq_left h1, max_eq_right h0]

theorem saturateClamp_inGamut (v : Vec3) : inGamut (saturateClamp v) :=
  ⟨clamp01_nonneg v.x, clamp01_le_one v.x, clamp01_nonneg v.y,
    clamp01_le_one v.y, clamp01_nonneg v.z, clamp01_le_one v.z⟩

theorem saturateClamp_of_inGamut (v : Vec3) (h : inGamut v) :
    saturateClamp v = v := by
  obtain ⟨x, y, z⟩ := v
  obtain ⟨h1, h2, h3, h4, h5, h6⟩ := h
  show Vec3.mk (clamp01 x) (clamp01 y) (clamp01 z) = Vec3.mk x y z
  rw [clamp01_of_mem x h1 h2, clamp01_of_mem y h3 h4, clamp01_of_mem z h5 h6]

/-- Claim C1: the generic conversion from `Color<A>` to `Color<B>` is
available if and only if `B: ConvertFrom<A>` is declared and a linear-space
conversion `B::LinearSpace: LinearConvertFromRaw<A::LinearSpace>` is declared;
availability is resolved from the declared instances before any value flows,
and the conversion function itself (`color_into`) is total, with no runtime
error path. -/
theorem colorInto_available_iff
    (convertFromImpls : ColorEncoding → ColorEncoding → Prop)
    (linearConvImpls : LinearColorSpace → LinearColorSpace → Prop)
    (A B : ColorEncoding) :
    ColorIntoAvailable convertFromImpls linearConvImpls A B ↔
      convertFromImpls A B ∧ linearConvImpls A.LinearSpace B.LinearSpace := by
  constructor
  · intro h
    cases h with
    | generic hcf hlc => exact ⟨hcf, hlc⟩
  · intro h
    exact ColorIntoAvailable.generic A B h.1 h.2

theorem colorInto_available_iff_witness :
    ColorIntoAvailable (fun _ _ => True) (fun _ _ => True)
      testEncoding testEncoding ↔ (True ∧ True) :=
  colorInto_available_iff (fun _ _ => True) (fun _ _ => True)
    testEncoding testEncoding

/-- Claim C2: for a blend-capable encoding (concretely, the `Vec3`-repr
working encoding with glam's component arithmetic), `lerp` returns exactly
the per-component value `from + (to - from) * factor` for all raw values and
every factor, including factors outside [0, 1], which extrapolate. f32
arithmetic is modelled as exact rational arithmetic. -/
theorem lerp_blend_formula (a b : Vec3) (factor : ℚ) :
    lerp testEncoding ⟨a⟩ ⟨b⟩ factor =
      ⟨⟨a.x + (b.x - a.x) * factor, a.y + (b.y - a.y) * factor,
        a.z + (b.z - a.z) * factor⟩⟩ := rfl

set_option maxRecDepth 40000 in
/-- Claim C3, counterexample to the claim as stated: in genuine f32 component
arithmetic the factor-one identity fails. With `from = 2 ^ 99` and `to = 1`
(both exactly representable f32 values), the exact difference `1 - 2 ^ 99` is
within half an ulp of `-(2 ^ 99)` and rounds to it, so
`from + ((to - from) * 1) = 0`, not `to`. -/
theorem lerp_factor_one_f32_counterexample :
    lerpF32 (F32.ofInt (2 ^ 99)) (F32.ofInt 1) (F32.ofInt 1) = F32.ofInt 0 ∧
      F32.ofInt 0 ≠ F32.ofInt 1 := by
  constructor
  · decide
  · decide

/-- Claim C3 (amended): for all raw values a, b of a blend-capable encoding,
`lerp a b 0 = a` and `lerp a b 1 = b` under exact component arithmetic; in
genuine f32 arithmetic the factor-one identity can fail through the rounding
of `to - from`, so the exact-arithmetic reading is the most that holds. -/
theorem lerp_factor_zero_one (a b : Vec3) :
    lerp testEncoding ⟨a⟩ ⟨b⟩ 0 = ⟨a⟩ ∧ lerp testEncoding ⟨a⟩ ⟨b⟩ 1 = ⟨b⟩ := by
  obtain ⟨ax, ay, az⟩ := a
  obtain ⟨bx, b2, b3⟩ := b
  constructor
  · show (⟨⟨ax + (bx - ax) * 0, ay + (b2 - ay) * 0, az + (b3 - az) * 0⟩⟩ :
        Color testEncoding) = ⟨⟨ax, ay, az⟩⟩
    simp only [Color.mk.injEq, Vec3.mk.injEq]
    refine ⟨by ring, by ring, by ring⟩
  · show (⟨⟨ax + (bx - ax) * 1, ay + (b2 - ay) * 1, az + (b3 - az) * 1⟩⟩ :
        Color testEncoding) = ⟨⟨bx, b2, b3⟩⟩
    simp only [Color.mk.injEq, Vec3.mk.injEq]
    refine ⟨by ring, by ring, by ring⟩

/-- Claim C4: the provided default body of `ConvertFrom::map_src` is the
identity: a `ConvertFrom` instance built with the default hook leaves every
source raw value unchanged. -/
theorem map_src_default_identity (SrcEnc DstEnc : ColorEncoding)
    (src : SrcEnc.Repr) :
    ({} : ConvertFrom SrcEnc DstEnc).map_src src = src := rfl

/-- Claim C5: in the orchestrated conversion, the linear-space step
(`linear_part_raw`, typed `Vec3 → Vec3`) touches only the vector: the alpha
produced by the source decode is the exact alpha handed to the destination
encode, for every source/destination pair, hook, and linear conversion. -/
theorem convert_alpha_passthrough (SrcEnc DstEnc : ColorEncoding)
    (cf : ConvertFrom SrcEnc DstEnc)
    (lc : LinearConvertFromRaw SrcEnc.LinearSpace DstEnc.LinearSpace)
    (r : SrcEnc.Repr) :
    convert SrcEnc DstEnc cf lc r =
      DstEnc.dst_transform_raw
        (lc.linear_part_raw (SrcEnc.src_transform_raw (cf.map_src r)).1)
        (SrcEnc.src_transform_raw (cf.map_src r)).2 := rfl

/-- Claim C6: converting from an encoding to itself is the identity, given
the documented interface contracts: the pre-map hook is the default identity,
the same-space linear conversion is a true no-op (spec section 4.2), and the
encoding's decode/encode transforms are mutually inverse (spec section 4.1).
With f32 modelled as exact rationals the "tight tolerance" is exact
equality. -/
theorem convert_same_encoding_identity (E : ColorEncoding)
    (cf : ConvertFrom E E)
    (lc : LinearConvertFromRaw E.LinearSpace E.LinearSpace)
    (hmap : ∀ r, cf.map_src r = r)
    (hnoop : ∀ v, lc.linear_part_raw v = v)
    (hinv : ∀ r : E.Repr,
      E.dst_transform_raw (E.src_transform_raw r).1 (E.src_transform_raw r).2
        = r)
    (r : E.Repr) :
    convert E E cf lc r = r := by
  show E.dst_transform_raw
      (lc.linear_part_raw (E.src_transform_raw (cf.map_src r)).1)
      (E.src_transform_raw (cf.map_src r)).2 = r
  rw [hmap r, hnoop]
  exact hinv r

theorem convert_same_encoding_identity_witness :
    convert testEncoding testEncoding ⟨fun r => r⟩ ⟨fun v => v⟩ ⟨1, 2, 3⟩
      = ⟨1, 2, 3⟩ :=
  convert_same_encoding_identity testEncoding ⟨fun r => r⟩ ⟨fun v => v⟩
    (fun _ => rfl) (fun _ => rfl) (fun _ => rfl) ⟨1, 2, 3⟩

/-- Claim C7: for every encoding with a `Saturate` implementation satisfying
the spec's contract — the result lies in the encoding's valid representable
range, and values already in that range are left unchanged by a clamp —
`saturate` is idempotent. -/
theorem saturate_idempotent (E : ColorEncoding) (saturate : E.Repr → E.Repr)
    (valid : E.Repr → Prop)
    (hinto : ∀ r, valid (saturate r))
    (hfix : ∀ r, valid r → saturate r = r)
    (r : E.Repr) :
    saturate (saturate r) = saturate r :=
  hfix (saturate r) (hinto r)

theorem saturate_idempotent_witness :
    saturateClamp (saturateClamp ⟨2, -1, 1/2⟩) = saturateClamp ⟨2, -1, 1/2⟩ :=
  saturate_idempotent testEncoding saturateClamp inGamut
    saturateClamp_inGamut saturateClamp_of_inGamut ⟨2, -1, 1/2⟩

/-- Claim C8: the linear-interpolation capability is available for an
encoding exactly when it is a declared `WorkingEncoding` and its repr has the
declared `Add`/`Sub`/`Mul<f32>` arithmetic — the single blanket impl is the
only way it arises, so it is not individually opted into or overridden beyond
that structural requirement. -/
theorem lerp_available_iff (workingImpls : ColorEncoding → Prop)
    (reprArithImpls : Type → Prop) (E : ColorEncoding) :
    LerpAvailable workingImpls reprArithImpls E ↔
      workingImpls E ∧ reprArithImpls E.Repr := by
  constructor
  · intro h
    cases h with
    | blanket hw ha => exact ⟨hw, ha⟩
  · intro h
    exact LerpAvailable.blanket E h.1 h.2

theorem lerp_available_iff_witness :
    LerpAvailable (fun _ => True) (fun _ => True) testEncoding ↔
      (True ∧ True) :=
  lerp_available_iff (fun _ => True) (fun _ => True) testEncoding

/-- Claim C9: the component reinterpretation of a raw 3-float representation
as an `{x, y, z}` view reports the raw components in storage order:
`view.x = raw.component0`, `view.y = raw.component1`,
`view.z = raw.component2`, for every raw value. -/
theorem cast_field_correspondence (r : Raw3) :
    (ComponentStructFor.cast r).x = r.component0 ∧
    (ComponentStructFor.cast r).y = r.component1 ∧
    (ComponentStructFor.cast r).z = r.component2 :=
  ⟨rfl, rfl, rfl⟩

/-- Claim C10: the core defines no blanket reflexive conversion instance: the
only `ColorInto` impl requires `ConvertFrom`, so an encoding that does not
declare itself convertible-from itself has no E-to-E conversion. -/
theorem colorInto_requires_self_convert_decl
    (convertFromImpls : ColorEncoding → ColorEncoding → Prop)
    (linearConvImpls : LinearColorSpace → LinearColorSpace → Prop)
    (E : ColorEncoding)
    (h : ¬ convertFromImpls E E) :
    ¬ ColorIntoAvailable convertFromImpls linearConvImpls E E := by
  intro havail
  cases havail with
  | generic hcf _ => exact h hcf

theorem colorInto_requires_self_convert_decl_witness :
    ¬ ColorIntoAvailable (fun _ _ => False) (fun _ _ => True)
      testEncoding testEncoding :=
  colorInto_requires_self_convert_decl (fun _ _ => False) (fun _ _ => True)
    testEncoding (fun hf => hf)

end Colstodian
